import Mathlib

/-!
Shallow embedding of the backtesting repository's computational core:
`calculation.py` (session assignment, session-scoped VWAP / band / label
engine) and `scenarios/trade_buffer.py` (per-session trade backtest and
winning-streak statistics).

Modelling conventions:
* Timestamps are whole minutes since an epoch (`Int`); a calendar date is
  the Euclidean quotient by 1440 and the time-of-day the Euclidean
  remainder, so 09:30 is minute 570, 12:30 is 750, 15:00 is 900 and
  16:00 is 960.  (Lean's `/` and `%` on `Int` are Euclidean.)
* Prices and volumes are `ℚ`; pandas' float `NaN`/`inf` results of a
  division by a zero denominator are modelled as `Option.none`.
* `pd.Series.expanding().std()` takes a square root, which is irrational,
  so the pipeline is parameterised by the square-root function
  `sqrt : ℚ → ℚ`; every claim proved below holds for an arbitrary such
  parameter (the code paths at issue never evaluate the root, or are
  invariant under its value).
* `session` keys are the dates themselves (`Int`); `trade_buffer.py`
  sorts its ISO "YYYY-MM-DD" session strings by the parsed date, which is
  order-isomorphic to comparing the dates directly.
-/

/-- Minutes in one day. -/
def minutesPerDay : Int := 1440

/-- The 09:30 session cutoff, in minutes after midnight. -/
def nine_thirty : Int := 570

/-- Calendar date of a timestamp given in minutes: Euclidean quotient. -/
def tsDate (t : Int) : Int := t / minutesPerDay

/-- Time-of-day of a timestamp given in minutes: Euclidean remainder. -/
def tsTime (t : Int) : Int := t % minutesPerDay

/-- `calculation.py::assign_session`: the bar's own date when its
time-of-day is at or after 09:30, otherwise the date of the timestamp one
day earlier. -/
def assign_session (t : Int) : Int :=
  if nine_thirty ≤ tsTime t then tsDate t else tsDate (t - minutesPerDay)

/-- One raw OHLCV bar (`calculation.py` STEP A output row). -/
structure Bar where
  dt : Int
  Open : ℚ
  High : ℚ
  Low : ℚ
  Close : ℚ
  Volume : ℚ
  deriving Repr, DecidableEq

/-- `Bar` enriched with the session-scoped aggregates of STEP C/D of
`calculation.py::process_data`. -/
structure EnrichedBar where
  dt : Int
  Open : ℚ
  High : ℚ
  Low : ℚ
  Close : ℚ
  Volume : ℚ
  session : Int
  typical_price : ℚ
  cum_count : Nat
  cum_tp_volume : ℚ
  cum_volume : ℚ
  VWAP : Option ℚ
  session_std : ℚ
  vwap_upper : Option ℚ
  vwap_lower : Option ℚ
  deriving Repr, DecidableEq

/-- Typical price `(High + Low + Close) / 3`. -/
def typicalPrice (b : Bar) : ℚ := (b.High + b.Low + b.Close) / 3

/-- The bars of `pref` in the same session as `b` (pandas `groupby`
collects every earlier row with the same session key, contiguous or
not). -/
def sessPrefix (pref : List Bar) (b : Bar) : List Bar :=
  pref.filter (fun p => assign_session p.dt = assign_session b.dt)

/-- Mean of a list of rationals (0 on the empty list, which the pipeline
never hits: it is only applied to a prefix ending at the current bar). -/
def listMean (xs : List ℚ) : ℚ := xs.sum / (xs.length : ℚ)

/-- Sample variance (`ddof = 1`, pandas' default for `std`), with the
`n ≤ 1` degenerate case sent to 0: pandas yields `NaN` there and
`process_data` immediately replaces it by 0 via `fillna(0)`. -/
def sampleVar (xs : List ℚ) : ℚ :=
  if xs.length ≤ 1 then 0
  else (xs.map (fun x => (x - listMean xs) ^ 2)).sum / ((xs.length : ℚ) - 1)

/-- The enriched record for bar `b` given the full list `pref` of bars
processed before it, mirroring STEP D of `process_data` row by row:
cumulative count / tp·volume / volume grouped by session, `VWAP` as the
guarded quotient, the expanding sample standard deviation with the
pre-09:30 zeroing override, then the ±2σ bands. -/
def mkEnriched (sqrt : ℚ → ℚ) (pref : List Bar) (b : Bar) : EnrichedBar :=
  let same := sessPrefix pref b
  let cum_count := same.length + 1
  let cum_tp_volume := (same.map (fun p => typicalPrice p * p.Volume)).sum
      + typicalPrice b * b.Volume
  let cum_volume := (same.map (fun p => p.Volume)).sum + b.Volume
  let vwap : Option ℚ :=
    if cum_volume = 0 then none else some (cum_tp_volume / cum_volume)
  let tps := (same.map typicalPrice) ++ [typicalPrice b]
  let rawStd := if tps.length ≤ 1 then 0 else sqrt (sampleVar tps)
  let std := if tsTime b.dt < nine_thirty then 0 else rawStd
  { dt := b.dt, Open := b.Open, High := b.High, Low := b.Low,
    Close := b.Close, Volume := b.Volume,
    session := assign_session b.dt,
    typical_price := typicalPrice b,
    cum_count := cum_count,
    cum_tp_volume := cum_tp_volume,
    cum_volume := cum_volume,
    VWAP := vwap,
    session_std := std,
    vwap_upper := vwap.map (fun v => v + 2 * std),
    vwap_lower := vwap.map (fun v => v - 2 * std) }

/-- Forward scan of `process_data` STEP C/D: each bar is enriched against
the list of bars already seen. -/
def enrichAux (sqrt : ℚ → ℚ) : List Bar → List Bar → List EnrichedBar
  | _, [] => []
  | pref, b :: rest => mkEnriched sqrt pref b :: enrichAux sqrt (pref ++ [b]) rest

/-- `calculation.py::process_data`, STEP C/D (session tagging plus
session VWAP, expanding std and bands) on an already sorted bar list. -/
def process_data (sqrt : ℚ → ℚ) (bars : List Bar) : List EnrichedBar :=
  enrichAux sqrt [] bars

theorem enrichAux_length (sqrt : ℚ → ℚ) :
    ∀ (rest pref : List Bar), (enrichAux sqrt pref rest).length = rest.length := by
  intro rest
  induction rest with
  | nil => intro pref; rfl
  | cons b rest ih => intro pref; simp [enrichAux, ih]

theorem process_data_length (sqrt : ℚ → ℚ) (bars : List Bar) :
    (process_data sqrt bars).length = bars.length :=
  enrichAux_length sqrt bars []

theorem enrichAux_getElem? (sqrt : ℚ → ℚ) :
    ∀ (rest pref : List Bar) (i : Nat),
      (enrichAux sqrt pref rest)[i]? =
        (rest[i]?).map (fun b => mkEnriched sqrt (pref ++ rest.take i) b) := by
  intro rest
  induction rest with
  | nil => intro pref i; simp [enrichAux]
  | cons b rest ih =>
    intro pref i
    cases i with
    | zero => simp [enrichAux]
    | succ i => simp [enrichAux, ih, List.append_assoc]

/-- Row `i` of the processed table is the enrichment of bar `i` against
the prefix of bars before it. -/
theorem process_data_getElem? (sqrt : ℚ → ℚ) (bars : List Bar) (i : Nat) :
    (process_data sqrt bars)[i]? =
      (bars[i]?).map (fun b => mkEnriched sqrt (bars.take i) b) := by
  simpa using enrichAux_getElem? sqrt bars [] i

/-- Every row of the processed table arises as `mkEnriched` of some bar
against some prefix. -/
theorem mem_process_data (sqrt : ℚ → ℚ) (bars : List Bar) (e : EnrichedBar)
    (he : e ∈ process_data sqrt bars) :
    ∃ (pref : List Bar) (b : Bar), e = mkEnriched sqrt pref b := by
  obtain ⟨i, hi, hget⟩ := List.getElem_of_mem he
  have h := process_data_getElem? sqrt bars i
  rw [List.getElem?_eq_getElem hi, hget] at h
  have hib : i < bars.length := by
    have := process_data_length sqrt bars; omega
  rw [List.getElem?_eq_getElem hib] at h
  exact ⟨bars.take i, bars[i], by simpa using h⟩

/-- The categorical session label emitted by the label engine
(`calculation.py` writes the lowercase strings "high" / "low" /
"neutral"; `trade_buffer.py` compares them case-insensitively, so the
closed enumeration is a faithful model of the values that flow between
the two). -/
inductive Label where
  | high
  | low
  | neutral
  deriving Repr, DecidableEq

/-- Maximum of a list of rationals, `none` on the empty list (pandas
`max` of an empty frame is `NaN`). -/
def maxQ : List ℚ → Option ℚ
  | [] => none
  | x :: xs => some (xs.foldl max x)

/-- Minimum of a list of rationals, `none` on the empty list. -/
def minQ : List ℚ → Option ℚ
  | [] => none
  | x :: xs => some (xs.foldl min x)

/-- `calculation.py::label_intraday_state`: restrict the session to the
bars exactly at the check time (fail with `none` when there are none),
select the last such bar, take the high/low range over the inclusive
prefix of the session up to the check time, and classify the selected
close's position in that range.  The final `none` branch is unreachable:
the bars at the check time are among the bars up to the check time, so
the prefix is nonempty whenever the selected bar exists. -/
def label_intraday_state (session_df : List Bar) (check_time : Int) :
    Option (Int × Label) :=
  let target_bar := session_df.filter (fun r => tsTime r.dt = check_time)
  match target_bar.getLast? with
  | none => none
  | some selected_bar =>
    let session_up_to_check := session_df.filter (fun r => tsTime r.dt ≤ check_time)
    match maxQ (session_up_to_check.map (·.High)),
          minQ (session_up_to_check.map (·.Low)) with
    | some high, some low =>
      let rng := high - low
      if rng = 0 then some (selected_bar.dt, Label.neutral)
      else
        let position := (selected_bar.Close - low) / rng
        if position ≥ 3 / 4 then some (selected_bar.dt, Label.high)
        else if position ≤ 1 / 4 then some (selected_bar.dt, Label.low)
        else some (selected_bar.dt, Label.neutral)
    | _, _ => none

/-- A row of the enriched table as consumed by
`trade_buffer.py::analyze_session` (only the columns it reads). -/
structure TRow where
  time : Int
  target_label : Option Label
  vwap_upper : ℚ
  vwap_lower : ℚ
  Close : ℚ
  deriving Repr, DecidableEq

/-- The per-session backtest outcome dictionary built by
`analyze_session`. -/
structure SessionResult where
  session : Int
  target_label : Label
  entry_price : ℚ
  price_15 : ℚ
  profit_15 : ℚ
  profitable_15 : Bool
  price_16 : ℚ
  profit_16 : ℚ
  profitable_16 : Bool
  deriving Repr, DecidableEq

/-- `trade_buffer.py`'s module-level trade-rule offset. -/
def buffer : ℚ := 10

/-- `trade_buffer.py::analyze_session`: find the 12:30 (minute 750) entry
row and its label (missing either → no result); label `high` → short at
`vwap_upper + buffer`, label `low` → long at `vwap_lower - buffer`, any
other label → no result; then require the 15:00 (900) and 16:00 (960)
rows and evaluate profit (short: entry − close, long: close − entry),
profitable meaning strictly positive profit. -/
def analyze_session (session : Int) (df : List TRow) : Option SessionResult :=
  let row_1230 := df.filter (fun r => r.time = 750)
  let row_1500 := df.filter (fun r => r.time = 900)
  let row_1600 := df.filter (fun r => r.time = 960)
  match row_1230.head? with
  | none => none
  | some entry_row =>
    match entry_row.target_label with
    | none => none
    | some target_label =>
      let entry_price? : Option ℚ :=
        match target_label with
        | Label.high => some (entry_row.vwap_upper + buffer)
        | Label.low => some (entry_row.vwap_lower - buffer)
        | Label.neutral => none
      match entry_price? with
      | none => none
      | some entry_price =>
        match row_1500.head? with
        | none => none
        | some r15 =>
          match row_1600.head? with
          | none => none
          | some r16 =>
            let price_1500 := r15.Close
            let price_16 := r16.Close
            let profit_15 :=
              match target_label with
              | Label.high => entry_price - price_1500
              | _ => price_1500 - entry_price
            let profit_16 :=
              match target_label with
              | Label.high => entry_price - price_16
              | _ => price_16 - entry_price
            some { session := session, target_label := target_label,
                   entry_price := entry_price,
                   price_15 := price_1500, profit_15 := profit_15,
                   profitable_15 := decide (profit_15 > 0),
                   price_16 := price_16, profit_16 := profit_16,
                   profitable_16 := decide (profit_16 > 0) }

/-- The `for` loop of `trade_buffer.py::compute_winning_streaks`: walk
the ordered profitability flags carrying the current run length, closing
a positive run whenever a non-profitable session is met and once more at
the end. -/
def collectStreaks : List Bool → Nat → List Nat
  | [], current_streak => if 0 < current_streak then [current_streak] else []
  | b :: rest, current_streak =>
    if b then collectStreaks rest (current_streak + 1)
    else if 0 < current_streak then current_streak :: collectStreaks rest 0
    else collectStreaks rest 0

/-- `trade_buffer.py::compute_winning_streaks`: sort the session results
by session date ascending (Python's `sorted` is a stable ascending sort;
`List.insertionSort` with `≤` on the date keys matches it), collect the
winning streaks at the 16:00 checkpoint, and return
`(longest, average, shortest)` — `(0, 0, 0)` when there is no streak. -/
def compute_winning_streaks (session_results : List SessionResult) :
    Nat × ℚ × Nat :=
  let sorted_results :=
    List.insertionSort (fun a b => a.session ≤ b.session) session_results
  let streaks := collectStreaks (sorted_results.map (·.profitable_16)) 0
  match streaks with
  | [] => (0, 0, 0)
  | s :: ss =>
    (ss.foldl max s, ((s :: ss).sum : ℚ) / (((s :: ss).length : ℚ)), ss.foldl min s)

/-- A concrete stand-in for the square-root parameter, used to evaluate
the pipeline at concrete inputs (none of the properties proved below
depend on its values). -/
def sqrt0 : ℚ → ℚ := fun _ => 0

/-- C4: `assign_session` is a pure function returning the timestamp's own
calendar date when its time-of-day is at or after the 09:30 cutoff and
the previous calendar date otherwise, so every bar gets exactly one
session. -/
theorem assign_session_spec (t : Int) :
    (assign_session t =
      if nine_thirty ≤ tsTime t then tsDate t else tsDate t - 1) ∧
    ∃! s : Int, assign_session t = s := by
  constructor
  · unfold assign_session tsDate tsTime minutesPerDay nine_thirty
    split <;> omega
  · exact ⟨assign_session t, rfl, fun s hs => hs.symm⟩

/-- C1: when the first 12:30 row of a session carries a label, the
backtester prices the trade off that row's bands — label `high`: short at
`vwap_upper + buffer` with profit `entry − close` at each checkpoint;
label `low`: long at `vwap_lower − buffer` with profit `close − entry` —
and marks a checkpoint profitable exactly when its profit is strictly
positive. -/
theorem analyze_session_spec (session : Int) (df : List TRow)
    (entry_row r15 r16 : TRow) (lbl : Label)
    (hentry : (df.filter (fun r => r.time = 750)).head? = some entry_row)
    (h15 : (df.filter (fun r => r.time = 900)).head? = some r15)
    (h16 : (df.filter (fun r => r.time = 960)).head? = some r16)
    (hlbl : entry_row.target_label = some lbl) :
    (lbl = Label.high →
      analyze_session session df = some
        { session := session, target_label := Label.high,
          entry_price := entry_row.vwap_upper + buffer,
          price_15 := r15.Close,
          profit_15 := entry_row.vwap_upper + buffer - r15.Close,
          profitable_15 := decide (entry_row.vwap_upper + buffer - r15.Close > 0),
          price_16 := r16.Close,
          profit_16 := entry_row.vwap_upper + buffer - r16.Close,
          profitable_16 := decide (entry_row.vwap_upper + buffer - r16.Close > 0) }) ∧
    (lbl = Label.low →
      analyze_session session df = some
        { session := session, target_label := Label.low,
          entry_price := entry_row.vwap_lower - buffer,
          price_15 := r15.Close,
          profit_15 := r15.Close - (entry_row.vwap_lower - buffer),
          profitable_15 := decide (r15.Close - (entry_row.vwap_lower - buffer) > 0),
          price_16 := r16.Close,
          profit_16 := r16.Close - (entry_row.vwap_lower - buffer),
          profitable_16 := decide (r16.Close - (entry_row.vwap_lower - buffer) > 0) }) := by
  constructor <;> rintro rfl <;>
    simp [analyze_session, hentry, h15, h16, hlbl]

/-- C1 witness: the spec's worked example — label `high`, entry-bar
`vwap_upper = 100`, `buffer = 10` gives `entry_price = 110`; checkpoint-2
close 95 gives `profit_2 = 15`, profitable. -/
theorem analyze_session_spec_witness :
    analyze_session 0
        [⟨750, some Label.high, 100, 80, 99⟩,
         ⟨900, none, 0, 0, 100⟩,
         ⟨960, none, 0, 0, 95⟩] = some
      { session := 0, target_label := Label.high, entry_price := 110,
        price_15 := 100, profit_15 := 10, profitable_15 := true,
        price_16 := 95, profit_16 := 15, profitable_16 := true } := by
  have h := (analyze_session_spec 0
      [⟨750, some Label.high, 100, 80, 99⟩,
       ⟨900, none, 0, 0, 100⟩,
       ⟨960, none, 0, 0, 95⟩]
      ⟨750, some Label.high, 100, 80, 99⟩
      ⟨900, none, 0, 0, 100⟩
      ⟨960, none, 0, 0, 95⟩
      Label.high (by decide) (by decide) (by decide) (by decide)).1 rfl
  rw [h]
  norm_num [buffer]

/-- C2: with at least one bar exactly at the check time, the label engine
takes the close of the last such bar, the max High / min Low over the
inclusive prefix of the session up to the check time, answers `neutral`
outright on a zero range (no division), and otherwise classifies the
close's range position against the 0.75 / 0.25 thresholds. -/
theorem label_intraday_state_spec (session_df : List Bar) (check_time : Int)
    (sel : Bar) (high low : ℚ)
    (hsel : (session_df.filter (fun r => tsTime r.dt = check_time)).getLast? =
      some sel)
    (hhigh : maxQ ((session_df.filter (fun r => tsTime r.dt ≤ check_time)).map
      (fun r => r.High)) = some high)
    (hlow : minQ ((session_df.filter (fun r => tsTime r.dt ≤ check_time)).map
      (fun r => r.Low)) = some low) :
    label_intraday_state session_df check_time =
      some (sel.dt,
        if high - low = 0 then Label.neutral
        else if (sel.Close - low) / (high - low) ≥ 3 / 4 then Label.high
        else if (sel.Close - low) / (high - low) ≤ 1 / 4 then Label.low
        else Label.neutral) := by
  simp only [label_intraday_state, hsel, hhigh, hlow]
  split_ifs <;> rfl

/-- C2 witness: a zero-range session labels `neutral` (and does not
fault), and a session closing at the top of its range labels `high`. -/
theorem label_intraday_state_spec_witness :
    label_intraday_state [⟨570, 5, 5, 5, 5, 1⟩, ⟨750, 5, 5, 5, 5, 1⟩] 750 =
      some (750, Label.neutral) ∧
    label_intraday_state [⟨570, 1, 10, 0, 1, 1⟩, ⟨750, 9, 10, 9, 10, 1⟩] 750 =
      some (750, Label.high) := by
  constructor
  · have h := label_intraday_state_spec
      [⟨570, 5, 5, 5, 5, 1⟩, ⟨750, 5, 5, 5, 5, 1⟩] 750
      ⟨750, 5, 5, 5, 5, 1⟩ 5 5 (by decide) (by decide) (by decide)
    rw [h]; norm_num
  · have h := label_intraday_state_spec
      [⟨570, 1, 10, 0, 1, 1⟩, ⟨750, 9, 10, 9, 10, 1⟩] 750
      ⟨750, 9, 10, 9, 10, 1⟩ 10 0 (by decide) (by decide) (by decide)
    rw [h]; norm_num

/-- Lengths of the maximal runs of consecutive `true`s, as the spec
phrases a winning streak: skip non-profitable sessions, and on a
profitable one record the whole contiguous block of profitable sessions
starting there. -/
def maximalRuns : List Bool → List Nat
  | [] => []
  | false :: rest => maximalRuns rest
  | true :: rest =>
    ((rest.takeWhile (fun b => b)).length + 1) ::
      maximalRuns (rest.dropWhile (fun b => b))
termination_by l => l.length
decreasing_by
  · simp only [List.length_cons]; omega
  · have := (List.dropWhile_sublist (l := rest) (fun b => b)).length_le
    simp only [List.length_cons]; omega

theorem collectStreaks_eq_maximalRuns :
    ∀ (flags : List Bool) (cur : Nat),
      collectStreaks flags cur =
        if cur = 0 then maximalRuns flags
        else (cur + (flags.takeWhile (fun b => b)).length) ::
          maximalRuns (flags.dropWhile (fun b => b)) := by
  intro flags
  induction flags with
  | nil =>
    intro cur
    by_cases h : cur = 0 <;>
      simp [collectStreaks, maximalRuns, h, Nat.pos_of_ne_zero]
  | cons b rest ih =>
    intro cur
    cases b with
    | true =>
      have h1 : collectStreaks (true :: rest) cur = collectStreaks rest (cur + 1) := by
        simp [collectStreaks]
      have h2 : maximalRuns (true :: rest) =
          ((rest.takeWhile (fun b => b)).length + 1) ::
            maximalRuns (rest.dropWhile (fun b => b)) := by
        simp [maximalRuns]
      have h3 : List.takeWhile (fun b => b) (true :: rest) =
          true :: rest.takeWhile (fun b => b) := by simp
      have h4 : List.dropWhile (fun b => b) (true :: rest) =
          rest.dropWhile (fun b => b) := by simp
      rw [h1, ih (cur + 1), if_neg (Nat.succ_ne_zero cur)]
      by_cases h : cur = 0
      · subst h
        rw [if_pos rfl, h2]
        simp only [List.cons.injEq]
        exact ⟨by omega, trivial⟩
      · rw [if_neg h, h3, h4]
        simp only [List.length_cons, List.cons.injEq]
        exact ⟨by omega, trivial⟩
    | false =>
      have h1f : maximalRuns (false :: rest) = maximalRuns rest := by
        simp [maximalRuns]
      have h3f : List.takeWhile (fun b => b) (false :: rest) = [] := by simp
      have h4f : List.dropWhile (fun b => b) (false :: rest) = false :: rest := by
        simp
      by_cases h : cur = 0
      · subst h
        have hc : collectStreaks (false :: rest) 0 = collectStreaks rest 0 := by
          simp [collectStreaks]
        rw [hc, ih 0, if_pos rfl, if_pos rfl, h1f]
      · have hc : collectStreaks (false :: rest) cur = cur :: collectStreaks rest 0 := by
          simp [collectStreaks, Nat.pos_of_ne_zero h]
        rw [hc, ih 0, if_pos rfl, if_neg h, h3f, h4f, h1f]
        simp

/-- Streak statistics as the spec states them over the list of maximal
run lengths: `(longest, average, shortest)`, all zero when there is no
run. -/
def streakStatsSpec : List Nat → Nat × ℚ × Nat
  | [] => (0, 0, 0)
  | s :: ss =>
    (ss.foldl max s, ((s :: ss).sum : ℚ) / (((s :: ss).length : ℚ)),
      ss.foldl min s)

/-- C3: `compute_winning_streaks` sorts the session results by session
date ascending (a stable sort, permuting the input) and returns the
`(longest, average, shortest)` statistics of the maximal runs of
consecutive `profitable_16` results; on the ordered flags
`[true, true, false, true]` this gives longest 2, average 3/2,
shortest 1. -/
theorem compute_winning_streaks_spec :
    (∀ results : List SessionResult,
      List.Sorted (fun a b : SessionResult => a.session ≤ b.session)
        (List.insertionSort (fun a b => a.session ≤ b.session) results) ∧
      (List.insertionSort (fun a b => a.session ≤ b.session) results).Perm
        results ∧
      compute_winning_streaks results =
        streakStatsSpec (maximalRuns
          ((List.insertionSort (fun a b => a.session ≤ b.session) results).map
            (fun r => r.profitable_16)))) ∧
    compute_winning_streaks
      [⟨0, Label.neutral, 0, 0, 0, false, 0, 0, true⟩,
       ⟨1, Label.neutral, 0, 0, 0, false, 0, 0, true⟩,
       ⟨2, Label.neutral, 0, 0, 0, false, 0, 0, false⟩,
       ⟨3, Label.neutral, 0, 0, 0, false, 0, 0, true⟩] = (2, 3 / 2, 1) := by
  constructor
  · intro results
    haveI : IsTotal SessionResult (fun a b => a.session ≤ b.session) :=
      ⟨fun a b => Int.le_total _ _⟩
    haveI : IsTrans SessionResult (fun a b => a.session ≤ b.session) :=
      ⟨fun _ _ _ h₁ h₂ => le_trans h₁ h₂⟩
    refine ⟨List.sorted_insertionSort _ _, List.perm_insertionSort _ _, ?_⟩
    simp only [compute_winning_streaks]
    rw [collectStreaks_eq_maximalRuns, if_pos rfl]
    rfl
  · simp only [compute_winning_streaks, List.insertionSort, List.orderedInsert]
    norm_num [collectStreaks, streakStatsSpec]

/-- C10: the streak aggregator degrades gracefully — an empty result list
or one with no profitable second checkpoint yields
`(longest, average, shortest) = (0, 0, 0)` instead of failing. -/
theorem compute_winning_streaks_degenerate :
    compute_winning_streaks [] = (0, 0, 0) ∧
    ∀ results : List SessionResult,
      (∀ r ∈ results, r.profitable_16 = false) →
      compute_winning_streaks results = (0, 0, 0) := by
  have key : ∀ flags : List Bool, (∀ b ∈ flags, b = false) →
      collectStreaks flags 0 = [] := by
    intro flags
    induction flags with
    | nil => intro _; rfl
    | cons b rest ih =>
      intro h
      have hb : b = false := h b (by simp)
      subst hb
      simpa [collectStreaks] using ih (fun x hx => h x (by simp [hx]))
  constructor
  · rfl
  · intro results h
    simp only [compute_winning_streaks]
    rw [key _ ?_]
    intro b hb
    simp only [List.mem_map] at hb
    obtain ⟨r, hr, rfl⟩ := hb
    exact h r ((List.perm_insertionSort _ _).mem_iff.mp hr)

/-- C10 witness: a single never-profitable session gives all-zero streak
statistics. -/
theorem compute_winning_streaks_degenerate_witness :
    compute_winning_streaks
      [⟨0, Label.neutral, 0, 0, 0, false, 0, 0, false⟩] = (0, 0, 0) :=
  compute_winning_streaks_degenerate.2 _ (by decide)

/-- C5: a bar whose session-cumulative volume is zero gets a null VWAP
(`none`, never `some 0`, modelling pandas' NaN), and the scan still
produces a row for every input bar. -/
theorem process_data_zero_volume (sqrt : ℚ → ℚ) (bars : List Bar)
    (e : EnrichedBar) (he : e ∈ process_data sqrt bars)
    (hzero : e.cum_volume = 0) :
    e.VWAP = none ∧ (process_data sqrt bars).length = bars.length := by
  refine ⟨?_, process_data_length sqrt bars⟩
  obtain ⟨pref, b, rfl⟩ := mem_process_data sqrt bars e he
  simp only [mkEnriched] at hzero ⊢
  simp [hzero]

/-- C5 witness: a session-opening bar with volume 0 yields `VWAP = none`
while the output still has one row per bar. -/
theorem process_data_zero_volume_witness :
    (mkEnriched sqrt0 [] ⟨570, 1, 2, 1, 2, 0⟩).VWAP = none ∧
    (process_data sqrt0 [⟨570, 1, 2, 1, 2, 0⟩]).length =
      [(⟨570, 1, 2, 1, 2, 0⟩ : Bar)].length := by
  refine process_data_zero_volume sqrt0 [⟨570, 1, 2, 1, 2, 0⟩] _ ?_ ?_
  · simp [process_data, enrichAux]
  · simp [mkEnriched, sessPrefix]

/-- C6: every bar whose time-of-day is strictly before the 09:30 cutoff
is emitted with `session_std` exactly 0, whatever session it belongs
to. -/
theorem process_data_precutoff_std (sqrt : ℚ → ℚ) (bars : List Bar)
    (e : EnrichedBar) (he : e ∈ process_data sqrt bars)
    (ht : tsTime e.dt < nine_thirty) :
    e.session_std = 0 := by
  obtain ⟨pref, b, rfl⟩ := mem_process_data sqrt bars e he
  simp only [mkEnriched] at ht ⊢
  simp [ht]

/-- C6 witness: a 01:00 bar (overnight extension of the previous
session) is emitted with `session_std = 0`. -/
theorem process_data_precutoff_std_witness :
    (mkEnriched sqrt0 [] ⟨60, 1, 2, 1, 2, 1⟩).session_std = 0 := by
  refine process_data_precutoff_std sqrt0 [⟨60, 1, 2, 1, 2, 1⟩] _ ?_ ?_
  · simp [process_data, enrichAux]
  · decide

/-- C8: the bands are the VWAP shifted by ±2·session_std, hence
symmetric: whenever all three are defined,
`vwap_upper − VWAP = VWAP − vwap_lower`. -/
theorem process_data_band_symmetry (sqrt : ℚ → ℚ) (bars : List Bar)
    (e : EnrichedBar) (he : e ∈ process_data sqrt bars) :
    e.vwap_upper = e.VWAP.map (fun v => v + 2 * e.session_std) ∧
    e.vwap_lower = e.VWAP.map (fun v => v - 2 * e.session_std) ∧
    ∀ u v l : ℚ, e.vwap_upper = some u → e.VWAP = some v →
      e.vwap_lower = some l → u - v = v - l := by
  obtain ⟨pref, b, rfl⟩ := mem_process_data sqrt bars e he
  refine ⟨rfl, rfl, ?_⟩
  intro u v l hu hv hl
  simp only [mkEnriched] at hu hv hl
  rw [hv] at hu hl
  simp only [Option.map_some', Option.some.injEq] at hu hl
  subst hu hl
  ring

/-- C8 witness: for a one-bar session with typical price 3 and unit
volume, both bands coincide with the VWAP and the symmetric-difference
identity holds at `u = v = l = 3`. -/
theorem process_data_band_symmetry_witness :
    (mkEnriched sqrt0 [] ⟨570, 3, 3, 3, 3, 1⟩).vwap_upper = some 3 ∧
    (mkEnriched sqrt0 [] ⟨570, 3, 3, 3, 3, 1⟩).vwap_lower = some 3 ∧
    (3 : ℚ) - 3 = 3 - 3 := by
  have h := process_data_band_symmetry sqrt0 [⟨570, 3, 3, 3, 3, 1⟩]
    (mkEnriched sqrt0 [] ⟨570, 3, 3, 3, 3, 1⟩) (by simp [process_data, enrichAux])
  have hV : (mkEnriched sqrt0 [] ⟨570, 3, 3, 3, 3, 1⟩).VWAP = some 3 := by
    norm_num [mkEnriched, sessPrefix, typicalPrice]
  have hstd : (mkEnriched sqrt0 [] ⟨570, 3, 3, 3, 3, 1⟩).session_std = 0 := by
    norm_num [mkEnriched, sessPrefix, tsTime, nine_thirty, minutesPerDay]
  have hU : (mkEnriched sqrt0 [] ⟨570, 3, 3, 3, 3, 1⟩).vwap_upper = some 3 := by
    rw [h.1, hV, hstd]; norm_num
  have hL : (mkEnriched sqrt0 [] ⟨570, 3, 3, 3, 3, 1⟩).vwap_lower = some 3 := by
    rw [h.2.1, hV, hstd]; norm_num
  exact ⟨hU, hL, h.2.2 3 3 3 hU hV hL⟩

/-- C9: at a session's first bar the expanding std of the single
observation is emitted as 0, so both bands collapse onto the VWAP
whenever the VWAP is defined. -/
theorem process_data_first_bar_std (sqrt : ℚ → ℚ) (bars : List Bar) (i : Nat)
    (hi : i < bars.length)
    (hfirst : ∀ j (hj : j < bars.length), j < i →
      assign_session bars[j].dt ≠ assign_session bars[i].dt) :
    (process_data sqrt bars)[i]? =
      some (mkEnriched sqrt (bars.take i) bars[i]) ∧
    (mkEnriched sqrt (bars.take i) bars[i]).session_std = 0 ∧
    ∀ v : ℚ, (mkEnriched sqrt (bars.take i) bars[i]).VWAP = some v →
      (mkEnriched sqrt (bars.take i) bars[i]).vwap_upper = some v ∧
      (mkEnriched sqrt (bars.take i) bars[i]).vwap_lower = some v := by
  have hempty : sessPrefix (bars.take i) bars[i] = [] := by
    simp only [sessPrefix, List.filter_eq_nil_iff]
    intro p hp
    obtain ⟨k, hk, hEq⟩ := List.mem_iff_getElem.mp hp
    have hk1 : k < i := by
      have := List.length_take i bars
      omega
    have hk2 : k < bars.length := by omega
    have hpk : p = bars[k] := by
      rw [← hEq, List.getElem_take]
    subst hpk
    simpa using hfirst k hk2 hk1
  have hstd : (mkEnriched sqrt (bars.take i) bars[i]).session_std = 0 := by
    simp [mkEnriched, hempty]
  refine ⟨?_, hstd, ?_⟩
  · rw [process_data_getElem?, List.getElem?_eq_getElem hi]
    rfl
  · intro v hv
    have hu : (mkEnriched sqrt (bars.take i) bars[i]).vwap_upper =
        (mkEnriched sqrt (bars.take i) bars[i]).VWAP.map
          (fun x => x + 2 * (mkEnriched sqrt (bars.take i) bars[i]).session_std) :=
      rfl
    have hl : (mkEnriched sqrt (bars.take i) bars[i]).vwap_lower =
        (mkEnriched sqrt (bars.take i) bars[i]).VWAP.map
          (fun x => x - 2 * (mkEnriched sqrt (bars.take i) bars[i]).session_std) :=
      rfl
    rw [hu, hl, hstd, hv]
    norm_num

/-- C9 witness: a one-bar session has `session_std = 0` and both bands
equal to its VWAP. -/
theorem process_data_first_bar_std_witness :
    (process_data sqrt0 [⟨570, 3, 3, 3, 3, 1⟩])[0]? =
      some (mkEnriched sqrt0 [] ⟨570, 3, 3, 3, 3, 1⟩) ∧
    (mkEnriched sqrt0 [] ⟨570, 3, 3, 3, 3, 1⟩).session_std = 0 ∧
    (mkEnriched sqrt0 [] ⟨570, 3, 3, 3, 3, 1⟩).vwap_upper = some 3 ∧
    (mkEnriched sqrt0 [] ⟨570, 3, 3, 3, 3, 1⟩).vwap_lower = some 3 := by
  have h := process_data_first_bar_std sqrt0 [⟨570, 3, 3, 3, 3, 1⟩] 0
    (by simp) (by intro j hj hlt; omega)
  have hV : (mkEnriched sqrt0 [] ⟨570, 3, 3, 3, 3, 1⟩).VWAP = some 3 := by
    norm_num [mkEnriched, sessPrefix, typicalPrice]
  obtain ⟨h1, h2, h3⟩ := h
  exact ⟨h1, h2, (h3 3 hV).1, (h3 3 hV).2⟩

theorem drop_filter_session_nil (bars : List Bar) (s : Int) (i : Nat)
    (hafter : ∀ k (hk : k < bars.length), i < k →
      assign_session bars[k].dt ≠ s) :
    (bars.drop (i + 1)).filter (fun p => assign_session p.dt = s) = [] := by
  rw [List.filter_eq_nil_iff]
  intro a ha
  obtain ⟨k, hk, hEq⟩ := List.mem_iff_getElem.mp ha
  have hk2 : i + 1 + k < bars.length := by
    have := List.length_drop (i + 1) bars
    omega
  have hak : a = bars[i + 1 + k] := by
    rw [← hEq, List.getElem_drop]
  subst hak
  simpa using hafter (i + 1 + k) hk2 (by omega)

theorem take_succ_filter_session (bars : List Bar) (s : Int) (i : Nat)
    (hi : i < bars.length) (hs : assign_session bars[i].dt = s) :
    (bars.take (i + 1)).filter (fun p => assign_session p.dt = s) =
      (bars.take i).filter (fun p => assign_session p.dt = s) ++ [bars[i]] := by
  rw [List.take_succ, List.getElem?_eq_getElem hi, List.filter_append]
  simp [hs]

theorem filter_session_length_last (bars : List Bar) (s : Int) (i : Nat)
    (hi : i < bars.length) (hs : assign_session bars[i].dt = s)
    (hlast : ∀ k (hk : k < bars.length), i < k →
      assign_session bars[k].dt ≠ s) :
    (bars.filter (fun p => assign_session p.dt = s)).length =
      ((bars.take i).filter (fun p => assign_session p.dt = s)).length + 1 := by
  conv_lhs => rw [← List.take_append_drop (i + 1) bars]
  rw [List.filter_append, List.length_append,
    drop_filter_session_nil bars s i hlast,
    take_succ_filter_session bars s i hi hs]
  simp

theorem filter_session_length_between (bars : List Bar) (s : Int) (i j : Nat)
    (hi : i < bars.length) (hj : j ≤ bars.length) (hij : i < j)
    (hs : assign_session bars[i].dt = s)
    (hmid : ∀ k (hk : k < bars.length), i < k → k < j →
      assign_session bars[k].dt ≠ s) :
    ((bars.take j).filter (fun p => assign_session p.dt = s)).length =
      ((bars.take i).filter (fun p => assign_session p.dt = s)).length + 1 := by
  have h1 : bars.take j =
      bars.take (i + 1) ++ (bars.drop (i + 1)).take (j - (i + 1)) := by
    rw [← List.take_add]
    congr 1
    omega
  have h2 : ((bars.drop (i + 1)).take (j - (i + 1))).filter
      (fun p => assign_session p.dt = s) = [] := by
    rw [List.filter_eq_nil_iff]
    intro a ha
    obtain ⟨k, hk, hEq⟩ := List.mem_iff_getElem.mp ha
    have hk1 : k < j - (i + 1) := by
      have := List.length_take (j - (i + 1)) (bars.drop (i + 1))
      omega
    have hk2 : i + 1 + k < bars.length := by omega
    have hak : a = bars[i + 1 + k] := by
      rw [← hEq, List.getElem_take, List.getElem_drop]
    subst hak
    simpa using hmid (i + 1 + k) hk2 (by omega) (by omega)
  rw [h1, List.filter_append, List.length_append, h2,
    take_succ_filter_session bars s i hi hs]
  simp

/-- C7: the session-grouped cumulative count restarts per session and
advances by one on each successive bar of the same session, so at a
session's last bar it equals the number of bars assigned to that
session. -/
theorem process_data_cum_count (sqrt : ℚ → ℚ) (bars : List Bar) :
    (∀ i (hi : i < bars.length),
      (∀ k (hk : k < bars.length), i < k →
        assign_session bars[k].dt ≠ assign_session bars[i].dt) →
      (process_data sqrt bars)[i]? =
        some (mkEnriched sqrt (bars.take i) bars[i]) ∧
      (mkEnriched sqrt (bars.take i) bars[i]).cum_count =
        (bars.filter (fun p =>
          assign_session p.dt = assign_session bars[i].dt)).length) ∧
    (∀ i j (hi : i < bars.length) (hj : j < bars.length), i < j →
      assign_session bars[i].dt = assign_session bars[j].dt →
      (∀ k (hk : k < bars.length), i < k → k < j →
        assign_session bars[k].dt ≠ assign_session bars[i].dt) →
      (mkEnriched sqrt (bars.take j) bars[j]).cum_count =
        (mkEnriched sqrt (bars.take i) bars[i]).cum_count + 1) := by
  constructor
  · intro i hi hlast
    constructor
    · rw [process_data_getElem?, List.getElem?_eq_getElem hi]
      rfl
    · show (sessPrefix (bars.take i) bars[i]).length + 1 = _
      rw [filter_session_length_last bars (assign_session bars[i].dt) i hi rfl
        hlast]
      rfl
  · intro i j hi hj hij hsess hmid
    show (sessPrefix (bars.take j) bars[j]).length + 1 =
      (sessPrefix (bars.take i) bars[i]).length + 1 + 1
    simp only [sessPrefix]
    rw [← hsess,
      filter_session_length_between bars (assign_session bars[i].dt) i j hi
        (le_of_lt hj) hij rfl hmid]

/-- C7 witness: in a table with two bars on one session followed by one
bar of the next session, the second bar (the first session's last) has
`cum_count = 2` — the session's bar count — and exceeds the first bar's
count by one. -/
theorem process_data_cum_count_witness :
    (mkEnriched sqrt0 (List.take 1 [⟨570, 1, 1, 1, 1, 1⟩, ⟨630, 2, 2, 2, 2, 1⟩,
        ⟨2010, 3, 3, 3, 3, 1⟩]) ⟨630, 2, 2, 2, 2, 1⟩).cum_count =
      (List.filter (fun p : Bar => assign_session p.dt = assign_session 630)
        [⟨570, 1, 1, 1, 1, 1⟩, ⟨630, 2, 2, 2, 2, 1⟩,
         ⟨2010, 3, 3, 3, 3, 1⟩]).length ∧
    (mkEnriched sqrt0 (List.take 1 [⟨570, 1, 1, 1, 1, 1⟩, ⟨630, 2, 2, 2, 2, 1⟩,
        ⟨2010, 3, 3, 3, 3, 1⟩]) ⟨630, 2, 2, 2, 2, 1⟩).cum_count =
      (mkEnriched sqrt0 (List.take 0 [⟨570, 1, 1, 1, 1, 1⟩, ⟨630, 2, 2, 2, 2, 1⟩,
        ⟨2010, 3, 3, 3, 3, 1⟩]) ⟨570, 1, 1, 1, 1, 1⟩).cum_count + 1 := by
  have h := process_data_cum_count sqrt0
    [⟨570, 1, 1, 1, 1, 1⟩, ⟨630, 2, 2, 2, 2, 1⟩, ⟨2010, 3, 3, 3, 3, 1⟩]
  refine ⟨(h.1 1 (by decide) ?_).2, h.2 0 1 (by decide) (by decide) (by decide)
    (by decide) ?_⟩
  · intro k hk h1k
    have h3 : k < 3 := by simpa using hk
    have hk2 : k = 2 := by omega
    subst hk2
    show assign_session 2010 ≠ assign_session 630
    decide
  · intro k hk h0k hk1
    omega
